import Mathlib

/-!
Verification of the key-fragment core of the `rust-umbral` proxy re-encryption
library, `src/umbral-pre/src/key_frag.rs`.

The curve layer (`src/src/curve.rs`) wraps the external `k256` crate's
secp256k1 types.  Since that group is cyclic of prime order, it is embedded
here in exponent representation: points and scalars both live in `ZMod q` for
a prime `q`, scalar multiplication `s · P` is multiplication in `ZMod q`, and
the generator is `1`.  Every definition below is translated from
`key_frag.rs`; the parts that `key_frag.rs` imports from files absent from the
repository snapshot (`hashing_ds.rs`, `params.rs`, `traits.rs`, the ECDSA
signature layer, and the fixed-width byte codecs of the external crates) are
modelled from the specification, either as explicit function parameters or as
injective codings, and say so in their doc comments.  Randomness (the OS RNG)
is passed in explicitly as sample streams.
-/

namespace Umbral

/-- Little-endian base-256 digits of `n`, exactly `len` of them (the low
`len` bytes of `n`). -/
def natToBytesLE : ℕ → ℕ → List ℕ
  | 0, _ => []
  | len + 1, n => n % 256 :: natToBytesLE len (n / 256)

/-- Modelled from the spec (§6): fixed-width big-endian byte serialization of
an integer (the concrete codec lives in the external `k256`/`generic-array`
crates). -/
def natToBytesBE (len n : ℕ) : List ℕ :=
  (natToBytesLE len n).reverse

/-- Value of a little-endian byte list. -/
def bytesToNatLE : List ℕ → ℕ
  | [] => 0
  | b :: rest => b + 256 * bytesToNatLE rest

/-- Value of a big-endian byte list. -/
def bytesToNatBE (l : List ℕ) : ℕ :=
  bytesToNatLE l.reverse

/-- Modelled from the spec (§4.1, §6): 32-byte big-endian scalar
serialization. -/
def scalar_to_bytes {q : ℕ} (s : ZMod q) : List ℕ :=
  natToBytesBE 32 s.val

/-- Modelled from the spec (§4.1, §6): scalar deserialization fails on a
wrong length or a non-canonical (out of range) value. -/
def bytes_to_scalar {q : ℕ} (l : List ℕ) : Option (ZMod q) :=
  if l.length = 32 ∧ bytesToNatBE l < q then some ((bytesToNatBE l : ℕ) : ZMod q) else none

/-- Modelled from the spec (§4.1, §6): 33-byte compressed point serialization,
a tag byte followed by 32 bytes identifying the point.  SEC1 itself lives in
the external `k256` crate; any injective 33-byte coding with a matching
decoder is a faithful model of the layout, and in exponent representation the
point is identified by its discrete logarithm. -/
def point_to_bytes {q : ℕ} (p : ZMod q) : List ℕ :=
  2 :: natToBytesBE 32 p.val

/-- Modelled from the spec (§4.1, §6): point deserialization fails on a wrong
length, a bad tag byte, or an out-of-range value. -/
def bytes_to_point {q : ℕ} (l : List ℕ) : Option (ZMod q) :=
  match l with
  | 2 :: rest =>
    if rest.length = 32 ∧ bytesToNatBE rest < q then
      some ((bytesToNatBE rest : ℕ) : ZMod q)
    else none
  | _ => none

/-- Modelled from the spec (§6): booleans serialize as a single byte
`0x00`/`0x01` (the `SerializableToArray` impl for `bool` is in `traits.rs`,
absent from the snapshot). -/
def bool_to_bytes (b : Bool) : List ℕ :=
  [if b then 1 else 0]

/-- Modelled from the spec (§6): any byte other than `0x00`/`0x01` is a
deserialization failure. -/
def bytes_to_bool (l : List ℕ) : Option Bool :=
  match l with
  | [0] => some false
  | [1] => some true
  | _ => none

/-- The group generator in exponent representation
(`curve_generator`, src/src/curve.rs:21). -/
def curve_generator {q : ℕ} : ZMod q :=
  1

/-- Modelled from the spec (§3): `pk = sk · G`.  The `PublicKey` wrapper is in
the part of the curve layer absent from the snapshot. -/
def PublicKey.from_secret_key {q : ℕ} (sk : ZMod q) : ZMod q :=
  curve_generator * sk

/-- Scheme parameters: the Pedersen base point `u` (spec §3; `params.rs` is
absent from the snapshot). -/
structure Parameters (q : ℕ) where
  u : ZMod q
deriving DecidableEq

/-- Modelled from the spec (§6): `Parameters` serializes as the 33-byte point
`u`. -/
def Parameters.to_bytes {q : ℕ} (params : Parameters q) : List ℕ :=
  point_to_bytes params.u

/-- Modelled from the spec (§6): `Parameters` deserialization. -/
def Parameters.from_bytes {q : ℕ} (l : List ℕ) : Option (Parameters q) :=
  (bytes_to_point l).map Parameters.mk

/-- A key fragment ID is 32 random bytes (key_frag.rs:15-26).  The
generation-time randomness is passed in explicitly, so the ID is its byte
list; `KeyFragID::to_array`/`from_array` are the identity (key_frag.rs:34-44). -/
abbrev KeyFragID := List ℕ

/-- Modelled from the spec (§4.2): the digest produced by
`hash_to_cfrag_signature` (`hashing_ds.rs` is absent from the snapshot).  A
domain-separated hash of injectively serialized inputs is modelled as the
injective tuple of its arguments (random-oracle idealization). -/
structure CfragSigDigest (q : ℕ) where
  kfrag_id : KeyFragID
  commitment : ZMod q
  precursor : ZMod q
  maybe_delegating_pk : Option (ZMod q)
  maybe_receiving_pk : Option (ZMod q)
deriving DecidableEq

/-- `hash_to_cfrag_signature` (spec §4.2), modelled as the injective tuple of
its arguments. -/
def hash_to_cfrag_signature {q : ℕ} (kfrag_id : KeyFragID)
    (commitment precursor : ZMod q)
    (maybe_delegating_pk maybe_receiving_pk : Option (ZMod q)) : CfragSigDigest q :=
  ⟨kfrag_id, commitment, precursor, maybe_delegating_pk, maybe_receiving_pk⟩

/-- `none_unless` (key_frag.rs:89-95). -/
def none_unless {T : Type} (x : Option T) (pred : Bool) : Option T :=
  if pred then x else none

/-- `KeyFragProof` (key_frag.rs:46-53).  `Sig` is the ECDSA signature type,
which lives in the part of the repository absent from the snapshot and is kept
abstract. -/
structure KeyFragProof (q : ℕ) (Sig : Type) where
  commitment : ZMod q
  signature_for_proxy : Sig
  signature_for_bob : Sig
  delegating_key_signed : Bool
  receiving_key_signed : Bool
deriving DecidableEq

/-- `KeyFragProof::new` (key_frag.rs:97-140).  `ecdsa_sign sk digest` models
`digest.sign(sk)`; per spec §4.3 ECDSA signing is deterministic (RFC 6979), so
it is a function of the secret key and the digest. -/
def KeyFragProof.new {q : ℕ} {Sig : Type}
    (ecdsa_sign : ZMod q → CfragSigDigest q → Sig)
    (params : Parameters q) (kfrag_id : KeyFragID) (kfrag_key : ZMod q)
    (kfrag_precursor : ZMod q) (signing_sk : ZMod q)
    (delegating_pk receiving_pk : ZMod q)
    (sign_delegating_key sign_receiving_key : Bool) : KeyFragProof q Sig :=
  let commitment := params.u * kfrag_key
  let maybe_delegating_pk := some delegating_pk
  let maybe_receiving_pk := some receiving_pk
  let signature_for_bob :=
    ecdsa_sign signing_sk
      (hash_to_cfrag_signature kfrag_id commitment kfrag_precursor
        maybe_delegating_pk maybe_receiving_pk)
  let signature_for_proxy :=
    ecdsa_sign signing_sk
      (hash_to_cfrag_signature kfrag_id commitment kfrag_precursor
        (none_unless maybe_delegating_pk sign_delegating_key)
        (none_unless maybe_receiving_pk sign_receiving_key))
  ⟨commitment, signature_for_proxy, signature_for_bob,
    sign_delegating_key, sign_receiving_key⟩

/-- `KeyFrag` (key_frag.rs:148-155). -/
structure KeyFrag (q : ℕ) (Sig : Type) where
  params : Parameters q
  id : KeyFragID
  key : ZMod q
  precursor : ZMod q
  proof : KeyFragProof q Sig
deriving DecidableEq

/-- `KeyFragFactory` (key_frag.rs:270-279). -/
structure KeyFragFactory (q : ℕ) where
  signing_sk : ZMod q
  precursor : ZMod q
  bob_pubkey_point : ZMod q
  dh_point : ZMod q
  params : Parameters q
  delegating_pk : ZMod q
  receiving_pk : ZMod q
  coefficients : List (ZMod q)
deriving DecidableEq

/-- The retry loop of `KeyFragFactory::new` (key_frag.rs:295-311).  Successive
outputs of `CurveScalar::random_nonzero` are passed in as the sample list; the
loop accepts the first sample whose shared-secret hash `d` is nonzero and
returns `(d, precursor, dh_point)`.  The source's `loop` has no iteration
bound, so the model returns `none` exactly when the supplied sample list is
exhausted with every `d` equal to zero — at that point the code would still be
looping. -/
def precursor_retry {q : ℕ}
    (hash_to_shared_secret : ZMod q → ZMod q → ZMod q → ZMod q)
    (bob_pubkey_point : ZMod q) :
    List (ZMod q) → Option (ZMod q × ZMod q × ZMod q)
  | [] => none
  | x :: rest =>
    let precursor := curve_generator * x
    let dh_point := bob_pubkey_point * x
    let d := hash_to_shared_secret precursor bob_pubkey_point dh_point
    if d ≠ 0 then some (d, precursor, dh_point)
    else precursor_retry hash_to_shared_secret bob_pubkey_point rest

/-- `KeyFragFactory::new` (key_frag.rs:281-334).  `hash_to_shared_secret` is
the abstract `H_shared` (spec §4.2; `hashing_ds.rs` is absent from the
snapshot); `precursor_samples` and `coefficient_samples` are the explicit
streams of `random_nonzero` outputs consumed by the retry loop and by the
coefficient loop (`for _i in 1..threshold`, which runs `threshold - 1`
times). -/
def KeyFragFactory.new {q : ℕ} [Fact q.Prime]
    (hash_to_shared_secret : ZMod q → ZMod q → ZMod q → ZMod q)
    (params : Parameters q) (delegating_sk : ZMod q) (receiving_pk : ZMod q)
    (signing_sk : ZMod q) (threshold : ℕ)
    (precursor_samples coefficient_samples : List (ZMod q)) :
    Option (KeyFragFactory q) :=
  let delegating_pk := PublicKey.from_secret_key delegating_sk
  let bob_pubkey_point := receiving_pk
  match precursor_retry hash_to_shared_secret bob_pubkey_point precursor_samples with
  | none => none
  | some (d, precursor, dh_point) =>
    let coefficient0 := delegating_sk * d⁻¹
    let coefficients := coefficient0 :: coefficient_samples.take (threshold - 1)
    some ⟨signing_sk, precursor, bob_pubkey_point, dh_point, params,
      delegating_pk, receiving_pk, coefficients⟩

/-- `poly_eval` (key_frag.rs:337-343): Horner evaluation starting from the
highest coefficient, `result = coeffs[len-1]`, then
`result = result * x + coeffs[i]` for `i = len-2 .. 0`.  On an empty
coefficient list the source would panic on an out-of-bounds index; the factory
always produces at least one coefficient, so that case is unreachable here and
maps to `0`. -/
def poly_eval {q : ℕ} : List (ZMod q) → ZMod q → ZMod q
  | [], _ => 0
  | [c], _ => c
  | c :: c2 :: rest, x => poly_eval (c2 :: rest) x * x + c

/-- `KeyFrag::new` (key_frag.rs:188-225).  `hash_to_polynomial_arg` is the
abstract `H_poly` (spec §4.2); `kfrag_id` is the explicit 32 bytes of
generation randomness. -/
def KeyFrag.new {q : ℕ} {Sig : Type}
    (hash_to_polynomial_arg : ZMod q → ZMod q → ZMod q → KeyFragID → ZMod q)
    (ecdsa_sign : ZMod q → CfragSigDigest q → Sig)
    (factory : KeyFragFactory q) (kfrag_id : KeyFragID)
    (sign_delegating_key sign_receiving_key : Bool) : KeyFrag q Sig :=
  let share_index := hash_to_polynomial_arg factory.precursor
    factory.bob_pubkey_point factory.dh_point kfrag_id
  let rk := poly_eval factory.coefficients share_index
  let proof := KeyFragProof.new ecdsa_sign factory.params kfrag_id rk
    factory.precursor factory.signing_sk factory.delegating_pk
    factory.receiving_pk sign_delegating_key sign_receiving_key
  ⟨factory.params, kfrag_id, rk, factory.precursor, proof⟩

/-- `KeyFrag::verify` (key_frag.rs:233-267).  `ecdsa_verify pk digest s`
models `digest.verify(&pk, &s)` of the signature layer (spec §4.3).  The
final conjunction mirrors the source's non-short-circuit `&` on line 266 and
the inner conjunctions mirror its `&&`; both denote `Bool.and`
extensionally. -/
def KeyFrag.verify {q : ℕ} {Sig : Type}
    (ecdsa_verify : ZMod q → CfragSigDigest q → Sig → Bool)
    (kf : KeyFrag q Sig) (signing_pk : ZMod q)
    (maybe_delegating_pk maybe_receiving_pk : Option (ZMod q)) : Bool :=
  let u := kf.params.u
  let kfrag_id := kf.id
  let key := kf.key
  let commitment := kf.proof.commitment
  let precursor := kf.precursor
  let correct_commitment := decide (commitment = u * key)
  let delegating_key_provided :=
    !(maybe_delegating_pk.isNone && kf.proof.delegating_key_signed)
  let receiving_key_provided :=
    !(maybe_receiving_pk.isNone && kf.proof.receiving_key_signed)
  let valid_kfrag_signature := delegating_key_provided && receiving_key_provided &&
    ecdsa_verify signing_pk
      (hash_to_cfrag_signature kfrag_id commitment precursor
        (none_unless maybe_delegating_pk kf.proof.delegating_key_signed)
        (none_unless maybe_receiving_pk kf.proof.receiving_key_signed))
      kf.proof.signature_for_proxy
  correct_commitment && valid_kfrag_signature

/-- `generate_kfrags` (key_frag.rs:362-381).  The factory is built once; then
`num_kfrags` fragments are produced, the `i`-th with ID `kfrag_ids i`. -/
def generate_kfrags {q : ℕ} {Sig : Type} [Fact q.Prime]
    (hash_to_shared_secret : ZMod q → ZMod q → ZMod q → ZMod q)
    (hash_to_polynomial_arg : ZMod q → ZMod q → ZMod q → KeyFragID → ZMod q)
    (ecdsa_sign : ZMod q → CfragSigDigest q → Sig)
    (params : Parameters q) (delegating_sk receiving_pk signing_sk : ZMod q)
    (threshold num_kfrags : ℕ) (sign_delegating_key sign_receiving_key : Bool)
    (precursor_samples coefficient_samples : List (ZMod q))
    (kfrag_ids : ℕ → KeyFragID) : Option (List (KeyFrag q Sig)) :=
  match KeyFragFactory.new hash_to_shared_secret params delegating_sk
      receiving_pk signing_sk threshold precursor_samples coefficient_samples with
  | none => none
  | some base =>
    some ((List.range num_kfrags).map fun i =>
      KeyFrag.new hash_to_polynomial_arg ecdsa_sign base (kfrag_ids i)
        sign_delegating_key sign_receiving_key)

/-- `SerializableToArray for KeyFragProof`, serialization direction
(key_frag.rs:61-71): commitment ‖ sig_proxy ‖ sig_bob ‖ delegating flag ‖
receiving flag.  `sig_to_bytes` is the 64-byte signature codec of spec §6
(the ECDSA layer is absent from the snapshot). -/
def KeyFragProof.to_bytes {q : ℕ} {Sig : Type} (sig_to_bytes : Sig → List ℕ)
    (proof : KeyFragProof q Sig) : List ℕ :=
  point_to_bytes proof.commitment ++ sig_to_bytes proof.signature_for_proxy ++
    sig_to_bytes proof.signature_for_bob ++
    bool_to_bytes proof.delegating_key_signed ++
    bool_to_bytes proof.receiving_key_signed

/-- `KeyFragProof::from_array` (key_frag.rs:73-87): the typed
`GenericArray<u8, KeyFragProofSize>` input of exactly `33+64+64+1+1 = 163`
bytes becomes a length guard, then the `take`/`take_last` chain. -/
def KeyFragProof.from_bytes {q : ℕ} {Sig : Type}
    (bytes_to_sig : List ℕ → Option Sig) (l : List ℕ) :
    Option (KeyFragProof q Sig) :=
  if l.length = 163 then
    match bytes_to_point (q := q) (l.take 33),
        bytes_to_sig ((l.drop 33).take 64),
        bytes_to_sig (((l.drop 33).drop 64).take 64),
        bytes_to_bool ((((l.drop 33).drop 64).drop 64).take 1),
        bytes_to_bool ((((l.drop 33).drop 64).drop 64).drop 1) with
    | some commitment, some signature_for_proxy, some signature_for_bob,
        some delegating_key_signed, some receiving_key_signed =>
      some ⟨commitment, signature_for_proxy, signature_for_bob,
        delegating_key_signed, receiving_key_signed⟩
    | _, _, _, _, _ => none
  else none

/-- `SerializableToArray for KeyFrag`, serialization direction
(key_frag.rs:159-169): params ‖ id ‖ key ‖ precursor ‖ proof. -/
def KeyFrag.to_bytes {q : ℕ} {Sig : Type} (sig_to_bytes : Sig → List ℕ)
    (kf : KeyFrag q Sig) : List ℕ :=
  kf.params.to_bytes ++ kf.id ++ scalar_to_bytes kf.key ++
    point_to_bytes kf.precursor ++ kf.proof.to_bytes sig_to_bytes

/-- `KeyFrag::from_array` (key_frag.rs:171-185): the typed input of exactly
`33+32+32+33+163 = 293` bytes becomes a length guard, then the `take` chain;
the 32 ID bytes are taken verbatim (`KeyFragID::from_array` always
succeeds). -/
def KeyFrag.from_bytes {q : ℕ} {Sig : Type}
    (bytes_to_sig : List ℕ → Option Sig) (l : List ℕ) :
    Option (KeyFrag q Sig) :=
  if l.length = 293 then
    match Parameters.from_bytes (q := q) (l.take 33),
        bytes_to_scalar (q := q) (((l.drop 33).drop 32).take 32),
        bytes_to_point (q := q) ((((l.drop 33).drop 32).drop 32).take 33),
        KeyFragProof.from_bytes bytes_to_sig ((((l.drop 33).drop 32).drop 32).drop 33) with
    | some params, some key, some precursor, some proof =>
      some ⟨params, (l.drop 33).take 32, key, precursor, proof⟩
    | _, _, _, _ => none
  else none

/-! ### Concrete instances used by witnesses and counterexamples

All of them live over `q = 5`.  `WSig` is the idealized ECDSA signature:
per spec §4.3 signing is deterministic (RFC 6979), so a signature is a
function of the signing key and the digest, idealized as the pair of the
signer's public key and the digest.  `WSigRS` is the signature *data* of the
serialization claims: the `(r, s)` scalar pair of spec §4.3/§6. -/

instance : Fact (Nat.Prime 5) := ⟨by norm_num⟩

abbrev WSig := ZMod 5 × CfragSigDigest 5

abbrev WSigRS := ZMod 5 × ZMod 5

def wHashShared : ZMod 5 → ZMod 5 → ZMod 5 → ZMod 5 :=
  fun _ _ _ => 1

def wHashPoly : ZMod 5 → ZMod 5 → ZMod 5 → KeyFragID → ZMod 5 :=
  fun _ _ _ _ => 2

def wSign : ZMod 5 → CfragSigDigest 5 → WSig :=
  fun sk d => (PublicKey.from_secret_key sk, d)

def wVerifySig : ZMod 5 → CfragSigDigest 5 → WSig → Bool :=
  fun pk d s => decide (s = (pk, d))

def wParams : Parameters 5 :=
  ⟨2⟩

/-- The factory value produced by `KeyFragFactory.new wHashShared wParams 3 4 2 2 [1] [2]`
(the first ephemeral sample `1` gives `d = 1 ≠ 0`, `precursor = 1`,
`dh_point = 4`, and coefficients `[3 · d⁻¹, 2]`). -/
def wFactory : KeyFragFactory 5 :=
  ⟨2, 1, 4, 4, wParams, 3, 4, [3 * (1 : ZMod 5)⁻¹, 2]⟩

def wKf : KeyFrag 5 WSig :=
  KeyFrag.new wHashPoly wSign wFactory [9, 9] true false

/-- `wKf` with its `signature_for_bob` replaced after generation: a modified
kfrag.  `KeyFrag::verify` never reads `signature_for_bob`, so this kfrag
still verifies. -/
def wKfBobTampered : KeyFrag 5 WSig :=
  { wKf with proof := { wKf.proof with signature_for_bob := (0, ⟨[0], 0, 0, none, none⟩) } }

/-- `wKf` with `params.u` and `key` jointly rescaled after generation
(`u ↦ 4 = 2·2⁻¹·4`, `key ↦ 3·key`, so that `u · key` is preserved in
`ZMod 5`): a modified kfrag whose commitment check and signed digest are
unchanged, so it still verifies. -/
def wKfParamsTampered : KeyFrag 5 WSig :=
  { wKf with params := ⟨4⟩, key := 3 * wKf.key }

/-- The factory value of a `threshold = 1` run
(`KeyFragFactory.new wHashShared wParams 3 4 2 1 [1] [2]`): the coefficient
list is the single constant coefficient. -/
def wFactoryT1 : KeyFragFactory 5 :=
  ⟨2, 1, 4, 4, wParams, 3, 4, [3 * (1 : ZMod 5)⁻¹]⟩

def wKfT1 : KeyFrag 5 WSig :=
  KeyFrag.new wHashPoly wSign wFactoryT1 [9, 9] true false

/-- A shared-secret hash whose value is zero except at precursor `3`, used to
drive the retry loop past any alleged iteration cap. -/
def wHashSharedC7 : ZMod 5 → ZMod 5 → ZMod 5 → ZMod 5 :=
  fun precursor _ _ => if precursor = 3 then 1 else 0

def wSigToBytes : WSigRS → List ℕ :=
  fun s => scalar_to_bytes s.1 ++ scalar_to_bytes s.2

def wBytesToSig : List ℕ → Option WSigRS :=
  fun l =>
    match bytes_to_scalar (q := 5) (l.take 32), bytes_to_scalar (q := 5) (l.drop 32) with
    | some r, some s => some (r, s)
    | _, _ => none

def wId32 : KeyFragID :=
  List.replicate 32 7

def wKfRS : KeyFrag 5 WSigRS :=
  ⟨wParams, wId32, 3, 1, ⟨4, (0, 1), (2, 3), true, false⟩⟩

/-! ### Byte-codec lemmas -/

theorem natToBytesLE_length (len n : ℕ) : (natToBytesLE len n).length = len := by
  induction len generalizing n with
  | zero => rfl
  | succ k ih => simp [natToBytesLE, ih]

theorem natToBytesBE_length (len n : ℕ) : (natToBytesBE len n).length = len := by
  simp [natToBytesBE, natToBytesLE_length]

theorem bytesToNatLE_natToBytesLE (len n : ℕ) :
    bytesToNatLE (natToBytesLE len n) = n % 256 ^ len := by
  induction len generalizing n with
  | zero => simp [natToBytesLE, bytesToNatLE, Nat.mod_one]
  | succ k ih =>
    have hmod : n % 256 ^ (k + 1) = 256 * (n / 256 % 256 ^ k) + n % 256 := by
      rw [pow_succ, mul_comm (256 ^ k) 256]
      conv_lhs => rw [← Nat.div_add_mod (n % (256 * 256 ^ k)) 256]
      rw [Nat.mod_mul_right_div_self, Nat.mod_mod_of_dvd _ ⟨256 ^ k, rfl⟩]
    simp only [natToBytesLE, bytesToNatLE, ih, hmod]
    omega

theorem bytesToNatBE_natToBytesBE (len n : ℕ) :
    bytesToNatBE (natToBytesBE len n) = n % 256 ^ len := by
  simp [bytesToNatBE, natToBytesBE, bytesToNatLE_natToBytesLE]

theorem scalar_to_bytes_length {q : ℕ} (s : ZMod q) :
    (scalar_to_bytes s).length = 32 := by
  simp [scalar_to_bytes, natToBytesBE_length]

theorem bytes_to_scalar_scalar_to_bytes {q : ℕ} [NeZero q] (hq : q ≤ 256 ^ 32)
    (s : ZMod q) : bytes_to_scalar (scalar_to_bytes s) = some s := by
  have hval : s.val < 256 ^ 32 := lt_of_lt_of_le (ZMod.val_lt s) hq
  have h1 : bytesToNatBE (natToBytesBE 32 s.val) = s.val := by
    rw [bytesToNatBE_natToBytesBE, Nat.mod_eq_of_lt hval]
  simp [bytes_to_scalar, scalar_to_bytes, h1, natToBytesBE_length,
    ZMod.val_lt s, ZMod.natCast_rightInverse s]

theorem point_to_bytes_length {q : ℕ} (p : ZMod q) :
    (point_to_bytes p).length = 33 := by
  simp [point_to_bytes, natToBytesBE_length]

theorem bytes_to_point_point_to_bytes {q : ℕ} [NeZero q] (hq : q ≤ 256 ^ 32)
    (p : ZMod q) : bytes_to_point (point_to_bytes p) = some p := by
  have hval : p.val < 256 ^ 32 := lt_of_lt_of_le (ZMod.val_lt p) hq
  have h1 : bytesToNatBE (natToBytesBE 32 p.val) = p.val := by
    rw [bytesToNatBE_natToBytesBE, Nat.mod_eq_of_lt hval]
  simp [bytes_to_point, point_to_bytes, h1, natToBytesBE_length,
    ZMod.val_lt p, ZMod.natCast_rightInverse p]

theorem bool_to_bytes_length (b : Bool) : (bool_to_bytes b).length = 1 := by
  cases b <;> rfl

theorem bytes_to_bool_bool_to_bytes (b : Bool) :
    bytes_to_bool (bool_to_bytes b) = some b := by
  cases b <;> rfl

/-! ### Structural lemmas about the retry loop, the factory and the generator -/

theorem precursor_retry_eq_some {q : ℕ}
    (hs : ZMod q → ZMod q → ZMod q → ZMod q) (bob : ZMod q)
    (samples : List (ZMod q)) (d precursor dh_point : ZMod q)
    (h : precursor_retry hs bob samples = some (d, precursor, dh_point)) :
    ∃ pre x rest, samples = pre ++ x :: rest ∧
      (∀ y ∈ pre, hs (curve_generator * y) bob (bob * y) = 0) ∧
      precursor = curve_generator * x ∧ dh_point = bob * x ∧
      d = hs (curve_generator * x) bob (bob * x) ∧ d ≠ 0 := by
  induction samples with
  | nil => simp [precursor_retry] at h
  | cons x rest ih =>
    simp only [precursor_retry] at h
    split at h
    case isTrue hd =>
      obtain ⟨hd', hprec, hdh⟩ : hs (curve_generator * x) bob (bob * x) = d ∧
          curve_generator * x = precursor ∧ bob * x = dh_point := by
        simpa using h
      exact ⟨[], x, rest, by simp, by simp, hprec.symm, hdh.symm, hd'.symm,
        hd'.symm ▸ hd⟩
    case isFalse hd =>
      obtain ⟨pre, x2, rest2, heq, hall, hprec, hdh, hd', hne⟩ := ih h
      refine ⟨x :: pre, x2, rest2, by rw [heq]; rfl, ?_, hprec, hdh, hd', hne⟩
      intro y hy
      rcases List.mem_cons.mp hy with hy | hy
      · subst hy
        exact not_not.mp hd
      · exact hall y hy

theorem precursor_retry_exists_some {q : ℕ}
    (hs : ZMod q → ZMod q → ZMod q → ZMod q) (bob : ZMod q)
    (samples : List (ZMod q))
    (h : ∃ x ∈ samples, hs (curve_generator * x) bob (bob * x) ≠ 0) :
    ∃ t, precursor_retry hs bob samples = some t := by
  induction samples with
  | nil => simp at h
  | cons x rest ih =>
    simp only [precursor_retry]
    split
    case isTrue hd => exact ⟨_, rfl⟩
    case isFalse hd =>
      apply ih
      obtain ⟨y, hy, hny⟩ := h
      rcases List.mem_cons.mp hy with hy | hy
      · exact absurd (hy ▸ hny) hd
      · exact ⟨y, hy, hny⟩

theorem keyfrag_factory_new_eq_some {q : ℕ} [Fact q.Prime]
    (hs : ZMod q → ZMod q → ZMod q → ZMod q)
    (params : Parameters q) (dsk rpk ssk : ZMod q) (T : ℕ)
    (ps cs : List (ZMod q)) (F : KeyFragFactory q)
    (h : KeyFragFactory.new hs params dsk rpk ssk T ps cs = some F) :
    ∃ d precursor dh_point,
      precursor_retry hs rpk ps = some (d, precursor, dh_point) ∧
      F = ⟨ssk, precursor, rpk, dh_point, params, PublicKey.from_secret_key dsk,
        rpk, dsk * d⁻¹ :: cs.take (T - 1)⟩ := by
  simp only [KeyFragFactory.new] at h
  rcases hr : precursor_retry hs rpk ps with _ | ⟨d, precursor, dh⟩
  · rw [hr] at h
    exact absurd h (by simp)
  · rw [hr] at h
    exact ⟨d, precursor, dh, rfl, (Option.some.inj h).symm⟩

theorem keyfrag_factory_new_of_retry {q : ℕ} [Fact q.Prime]
    (hs : ZMod q → ZMod q → ZMod q → ZMod q)
    (params : Parameters q) (dsk rpk ssk : ZMod q) (T : ℕ)
    (ps cs : List (ZMod q)) (d precursor dh_point : ZMod q)
    (hr : precursor_retry hs rpk ps = some (d, precursor, dh_point)) :
    KeyFragFactory.new hs params dsk rpk ssk T ps cs =
      some ⟨ssk, precursor, rpk, dh_point, params, PublicKey.from_secret_key dsk,
        rpk, dsk * d⁻¹ :: cs.take (T - 1)⟩ := by
  simp only [KeyFragFactory.new, hr]

theorem generate_kfrags_eq_some {q : ℕ} {Sig : Type} [Fact q.Prime]
    (hs : ZMod q → ZMod q → ZMod q → ZMod q)
    (hp : ZMod q → ZMod q → ZMod q → KeyFragID → ZMod q)
    (es : ZMod q → CfragSigDigest q → Sig)
    (params : Parameters q) (dsk rpk ssk : ZMod q) (T N : ℕ) (sdk srk : Bool)
    (ps cs : List (ZMod q)) (ids : ℕ → KeyFragID) (kfs : List (KeyFrag q Sig))
    (h : generate_kfrags hs hp es params dsk rpk ssk T N sdk srk ps cs ids = some kfs) :
    ∃ F, KeyFragFactory.new hs params dsk rpk ssk T ps cs = some F ∧
      kfs = (List.range N).map fun i => KeyFrag.new hp es F (ids i) sdk srk := by
  simp only [generate_kfrags] at h
  rcases hF : KeyFragFactory.new hs params dsk rpk ssk T ps cs with _ | F
  · rw [hF] at h
    exact absurd h (by simp)
  · rw [hF] at h
    exact ⟨F, rfl, (Option.some.inj h).symm⟩

theorem generate_kfrags_of_factory {q : ℕ} {Sig : Type} [Fact q.Prime]
    (hs : ZMod q → ZMod q → ZMod q → ZMod q)
    (hp : ZMod q → ZMod q → ZMod q → KeyFragID → ZMod q)
    (es : ZMod q → CfragSigDigest q → Sig)
    (params : Parameters q) (dsk rpk ssk : ZMod q) (T N : ℕ) (sdk srk : Bool)
    (ps cs : List (ZMod q)) (ids : ℕ → KeyFragID) (F : KeyFragFactory q)
    (hF : KeyFragFactory.new hs params dsk rpk ssk T ps cs = some F) :
    generate_kfrags hs hp es params dsk rpk ssk T N sdk srk ps cs ids =
      some ((List.range N).map fun i => KeyFrag.new hp es F (ids i) sdk srk) := by
  simp only [generate_kfrags, hF]

section NewFields

variable {q : ℕ} {Sig : Type}
variable (hp : ZMod q → ZMod q → ZMod q → KeyFragID → ZMod q)
variable (es : ZMod q → CfragSigDigest q → Sig)
variable (F : KeyFragFactory q) (id0 : KeyFragID) (sdk srk : Bool)

theorem keyfrag_new_params : (KeyFrag.new hp es F id0 sdk srk).params = F.params :=
  rfl

theorem keyfrag_new_id : (KeyFrag.new hp es F id0 sdk srk).id = id0 :=
  rfl

theorem keyfrag_new_precursor :
    (KeyFrag.new hp es F id0 sdk srk).precursor = F.precursor :=
  rfl

theorem keyfrag_new_key : (KeyFrag.new hp es F id0 sdk srk).key =
    poly_eval F.coefficients (hp F.precursor F.bob_pubkey_point F.dh_point id0) :=
  rfl

theorem keyfrag_new_delegating_signed :
    (KeyFrag.new hp es F id0 sdk srk).proof.delegating_key_signed = sdk :=
  rfl

theorem keyfrag_new_receiving_signed :
    (KeyFrag.new hp es F id0 sdk srk).proof.receiving_key_signed = srk :=
  rfl

theorem keyfrag_new_commitment :
    (KeyFrag.new hp es F id0 sdk srk).proof.commitment =
      F.params.u * (KeyFrag.new hp es F id0 sdk srk).key :=
  rfl

theorem keyfrag_new_sig_proxy :
    (KeyFrag.new hp es F id0 sdk srk).proof.signature_for_proxy =
      es F.signing_sk (hash_to_cfrag_signature id0
        ((KeyFrag.new hp es F id0 sdk srk).proof.commitment) F.precursor
        (none_unless (some F.delegating_pk) sdk)
        (none_unless (some F.receiving_pk) srk)) :=
  rfl

theorem keyfrag_new_sig_bob :
    (KeyFrag.new hp es F id0 sdk srk).proof.signature_for_bob =
      es F.signing_sk (hash_to_cfrag_signature id0
        ((KeyFrag.new hp es F id0 sdk srk).proof.commitment) F.precursor
        (some F.delegating_pk) (some F.receiving_pk)) :=
  rfl

end NewFields

/-! ### Claim C5 -/

/-- C5: for every `KeyFrag` whose proof records `delegating_key_signed = true`,
`KeyFrag::verify` returns `false` whenever the delegating public key is absent,
regardless of every other argument; symmetrically, when
`receiving_key_signed = true` and the receiving key is absent, it returns
`false` (key_frag.rs:249-266). -/
theorem keyfrag_verify_missing_required_key {q : ℕ} {Sig : Type}
    (ev : ZMod q → CfragSigDigest q → Sig → Bool) :
    (∀ (kf : KeyFrag q Sig) (spk : ZMod q) (mr : Option (ZMod q)),
      kf.proof.delegating_key_signed = true →
      KeyFrag.verify ev kf spk none mr = false) ∧
    (∀ (kf : KeyFrag q Sig) (spk : ZMod q) (md : Option (ZMod q)),
      kf.proof.receiving_key_signed = true →
      KeyFrag.verify ev kf spk md none = false) := by
  constructor <;> intro kf spk m h <;> simp [KeyFrag.verify, h]

/-- Witness for C5 at a concrete kfrag generated with
`sign_delegating_key = true`. -/
theorem keyfrag_verify_missing_required_key_witness :
    KeyFrag.verify wVerifySig wKf 2 none (some 4) = false :=
  (keyfrag_verify_missing_required_key wVerifySig).1 wKf 2 (some 4) rfl

/-! ### Claim C3 -/

/-- C3: in every successful run of `KeyFragFactory::new`, the constant
coefficient of the sharing polynomial is `sk_A · d⁻¹` where
`d = H_shared(precursor, pk_B_point, dh_point)` is nonzero, the ephemeral
scalar was resampled as long as `d = 0`, and `precursor = x_A · G`,
`dh_point = x_A · pk_B_point` for the accepted ephemeral sample `x_A`
(key_frag.rs:295-315). -/
theorem keyfrag_factory_coefficient_zero {q : ℕ} [Fact q.Prime]
    (hs : ZMod q → ZMod q → ZMod q → ZMod q)
    (params : Parameters q) (dsk rpk ssk : ZMod q) (T : ℕ)
    (ps cs : List (ZMod q)) (F : KeyFragFactory q)
    (h : KeyFragFactory.new hs params dsk rpk ssk T ps cs = some F) :
    ∃ pre x rest, ps = pre ++ x :: rest ∧
      (∀ y ∈ pre, hs (curve_generator * y) rpk (rpk * y) = 0) ∧
      F.precursor = curve_generator * x ∧
      F.dh_point = rpk * x ∧
      hs F.precursor rpk F.dh_point ≠ 0 ∧
      F.coefficients.head? = some (dsk * (hs F.precursor rpk F.dh_point)⁻¹) := by
  obtain ⟨d, prec, dh, hr, rfl⟩ :=
    keyfrag_factory_new_eq_some hs params dsk rpk ssk T ps cs F h
  obtain ⟨pre, x, rest, heq, hall, hprec, hdh, hd, hne⟩ :=
    precursor_retry_eq_some hs rpk ps d prec dh hr
  subst hprec
  subst hdh
  exact ⟨pre, x, rest, heq, hall, rfl, rfl, hd ▸ hne, by rw [← hd]; rfl⟩

/-- Witness for C3 at a concrete factory run. -/
theorem keyfrag_factory_coefficient_zero_witness :
    ∃ pre x rest, ([1] : List (ZMod 5)) = pre ++ x :: rest ∧
      (∀ y ∈ pre, wHashShared (curve_generator * y) 4 (4 * y) = 0) ∧
      wFactory.precursor = curve_generator * x ∧
      wFactory.dh_point = 4 * x ∧
      wHashShared wFactory.precursor 4 wFactory.dh_point ≠ 0 ∧
      wFactory.coefficients.head? =
        some (3 * (wHashShared wFactory.precursor 4 wFactory.dh_point)⁻¹) :=
  keyfrag_factory_coefficient_zero wHashShared wParams 3 4 2 2 [1] [2] wFactory rfl

/-! ### Claim C7 -/

set_option maxRecDepth 4000 in
/-- C7 counterexample: the retry loop has no cap of 255 iterations (nor any
error path): on a sample stream whose first 256 ephemerals all hash to
`d = 0` and whose 257-th hashes to `d ≠ 0`, `KeyFragFactory::new` runs 257
iterations and succeeds instead of returning a fatal error when a cap is
exhausted. -/
theorem keyfrag_factory_retry_cap_cex :
    (KeyFragFactory.new wHashSharedC7 wParams 3 4 2 2
      (List.replicate 256 (0 : ZMod 5) ++ [3]) [2]).isSome = true :=
  rfl

/-- C7 amended: the retry loop of `KeyFragFactory::new` is unbounded — it has
no iteration cap and no error path; for every `n`, a sample stream of `n`
ephemerals hashing to `d = 0` followed by one hashing to `d ≠ 0` makes the
factory succeed after `n + 1` iterations, accepting that last sample
(key_frag.rs:295-311). -/
theorem keyfrag_factory_retry_unbounded {q : ℕ} [Fact q.Prime]
    (hs : ZMod q → ZMod q → ZMod q → ZMod q)
    (params : Parameters q) (dsk rpk ssk : ZMod q) (T : ℕ) (cs : List (ZMod q))
    (x0 x1 : ZMod q)
    (h0 : hs (curve_generator * x0) rpk (rpk * x0) = 0)
    (h1 : hs (curve_generator * x1) rpk (rpk * x1) ≠ 0) (n : ℕ) :
    ∃ F, KeyFragFactory.new hs params dsk rpk ssk T
        (List.replicate n x0 ++ [x1]) cs = some F ∧
      F.precursor = curve_generator * x1 := by
  have hr : precursor_retry hs rpk (List.replicate n x0 ++ [x1]) =
      some (hs (curve_generator * x1) rpk (rpk * x1),
        curve_generator * x1, rpk * x1) := by
    induction n with
    | zero => simp [precursor_retry, h1]
    | succ k ih => simp [List.replicate_succ, precursor_retry, h0, ih]
  exact ⟨_, keyfrag_factory_new_of_retry hs params dsk rpk ssk T _ cs _ _ _ hr, rfl⟩

/-- Witness for the amended C7: 301 iterations, success at the 301-st. -/
theorem keyfrag_factory_retry_unbounded_witness :
    ∃ F, KeyFragFactory.new wHashSharedC7 wParams 3 4 2 2
        (List.replicate 300 (0 : ZMod 5) ++ [3]) [2] = some F ∧
      F.precursor = curve_generator * 3 :=
  keyfrag_factory_retry_unbounded wHashSharedC7 wParams 3 4 2 2 [2] 0 3
    (by decide) (by decide) 300

/-! ### Claim C2 -/

/-- C2 counterexample: `generate_kfrags` performs no validation of
`threshold`: with `threshold = 0, num_kfrags = 2` and with
`threshold = 3 > num_kfrags = 2` it returns a slice of 2 kfrags normally
instead of failing (key_frag.rs:363-381 contains no precondition check, and
`KeyFragFactory::new` pushes `coefficient0` unconditionally, so even
`threshold = 0` yields a nonempty coefficient list). -/
theorem generate_kfrags_threshold_zero_cex :
    (generate_kfrags wHashShared wHashPoly wSign wParams 3 4 2 0 2 true false
      [1] [2] fun _ => [9, 9]).map List.length = some 2 ∧
    (generate_kfrags wHashShared wHashPoly wSign wParams 3 4 2 3 2 true false
      [1] [2] fun _ => [9, 9]).map List.length = some 2 :=
  ⟨rfl, rfl⟩

/-- C2 amended: `generate_kfrags` returns normally — `num_kfrags` fragments —
for every `threshold` whatsoever (including `0` and values exceeding
`num_kfrags`), as long as the retry loop accepts some ephemeral sample; no
precondition failure exists. -/
theorem generate_kfrags_no_threshold_check {q : ℕ} {Sig : Type} [Fact q.Prime]
    (hs : ZMod q → ZMod q → ZMod q → ZMod q)
    (hp : ZMod q → ZMod q → ZMod q → KeyFragID → ZMod q)
    (es : ZMod q → CfragSigDigest q → Sig)
    (params : Parameters q) (dsk rpk ssk : ZMod q) (T N : ℕ) (sdk srk : Bool)
    (ps cs : List (ZMod q)) (ids : ℕ → KeyFragID)
    (h : ∃ x ∈ ps, hs (curve_generator * x) rpk (rpk * x) ≠ 0) :
    ∃ kfs, generate_kfrags hs hp es params dsk rpk ssk T N sdk srk ps cs ids =
        some kfs ∧ kfs.length = N := by
  obtain ⟨⟨d, prec, dh⟩, hr⟩ := precursor_retry_exists_some hs rpk ps h
  exact ⟨_, generate_kfrags_of_factory hs hp es params dsk rpk ssk T N sdk srk
    ps cs ids _ (keyfrag_factory_new_of_retry hs params dsk rpk ssk T ps cs
      d prec dh hr), by simp⟩

/-- Witness for the amended C2 at `threshold = 0, num_kfrags = 2`. -/
theorem generate_kfrags_no_threshold_check_witness :
    ∃ kfs, generate_kfrags wHashShared wHashPoly wSign wParams 3 4 2 0 2
        true false [1] [2] (fun _ => [9, 9]) = some kfs ∧ kfs.length = 2 :=
  generate_kfrags_no_threshold_check wHashShared wHashPoly wSign wParams 3 4 2
    0 2 true false [1] [2] (fun _ => [9, 9]) ⟨1, by decide, by decide⟩

/-! ### Claim C8 -/

/-- C8: all kfrags of one `generate_kfrags` batch carry the identical
precursor `x_A · G` and identical params, and their keys are evaluations of
one and the same sharing polynomial at `H_poly(precursor, pk_B, dh_point, id)`
— the ephemeral scalar, the DH point and the coefficient list are fixed once
per batch before any kfrag is produced (key_frag.rs:363-381, 188-225). -/
theorem generate_kfrags_batch_invariants {q : ℕ} {Sig : Type} [Fact q.Prime]
    (hs : ZMod q → ZMod q → ZMod q → ZMod q)
    (hp : ZMod q → ZMod q → ZMod q → KeyFragID → ZMod q)
    (es : ZMod q → CfragSigDigest q → Sig)
    (params : Parameters q) (dsk rpk ssk : ZMod q) (T N : ℕ) (sdk srk : Bool)
    (ps cs : List (ZMod q)) (ids : ℕ → KeyFragID) (kfs : List (KeyFrag q Sig))
    (h : generate_kfrags hs hp es params dsk rpk ssk T N sdk srk ps cs ids = some kfs) :
    ∃ x coeffs, ∀ kf ∈ kfs,
      kf.precursor = curve_generator * x ∧
      kf.params = params ∧
      kf.key = poly_eval coeffs (hp (curve_generator * x) rpk (rpk * x) kf.id) := by
  obtain ⟨F, hF, rfl⟩ :=
    generate_kfrags_eq_some hs hp es params dsk rpk ssk T N sdk srk ps cs ids _ h
  obtain ⟨d, prec, dh, hr, rfl⟩ :=
    keyfrag_factory_new_eq_some hs params dsk rpk ssk T ps cs F hF
  obtain ⟨pre, x, rest, heq, hall, hprec, hdh, hd, hne⟩ :=
    precursor_retry_eq_some hs rpk ps d prec dh hr
  subst hprec
  subst hdh
  refine ⟨x, dsk * d⁻¹ :: cs.take (T - 1), ?_⟩
  intro kf hkf
  obtain ⟨i, hi, rfl⟩ := List.mem_map.mp hkf
  exact ⟨rfl, rfl, rfl⟩

/-- Witness for C8 at a concrete batch. -/
theorem generate_kfrags_batch_invariants_witness :
    ∃ x coeffs, ∀ kf ∈ [wKf],
      kf.precursor = curve_generator * x ∧
      kf.params = wParams ∧
      kf.key = poly_eval coeffs (wHashPoly (curve_generator * x) 4 (4 * x) kf.id) :=
  generate_kfrags_batch_invariants wHashShared wHashPoly wSign wParams 3 4 2 2 1
    true false [1] [2] (fun _ => [9, 9]) [wKf] rfl

/-! ### Claim C10 -/

/-- C10: with `threshold = 1` the sharing polynomial is constant —
`poly_eval` on a single-coefficient list returns that coefficient for every
share index — so every kfrag of the batch carries the identical key
`sk_A · d⁻¹`, independently of its random ID
(key_frag.rs:337-343, 315-321, 188-225). -/
theorem generate_kfrags_threshold_one_constant {q : ℕ} {Sig : Type} [Fact q.Prime]
    (hs : ZMod q → ZMod q → ZMod q → ZMod q)
    (hp : ZMod q → ZMod q → ZMod q → KeyFragID → ZMod q)
    (es : ZMod q → CfragSigDigest q → Sig)
    (params : Parameters q) (dsk rpk ssk : ZMod q) (N : ℕ) (sdk srk : Bool)
    (ps cs : List (ZMod q)) (ids : ℕ → KeyFragID) (kfs : List (KeyFrag q Sig))
    (h : generate_kfrags hs hp es params dsk rpk ssk 1 N sdk srk ps cs ids = some kfs) :
    (∀ (c x : ZMod q), poly_eval [c] x = c) ∧
    ∃ d, d ≠ 0 ∧ (∃ x ∈ ps, d = hs (curve_generator * x) rpk (rpk * x)) ∧
      ∀ kf ∈ kfs, kf.key = dsk * d⁻¹ := by
  refine ⟨fun c x => rfl, ?_⟩
  obtain ⟨F, hF, rfl⟩ :=
    generate_kfrags_eq_some hs hp es params dsk rpk ssk 1 N sdk srk ps cs ids _ h
  obtain ⟨d, prec, dh, hr, rfl⟩ :=
    keyfrag_factory_new_eq_some hs params dsk rpk ssk 1 ps cs F hF
  obtain ⟨pre, x, rest, heq, hall, hprec, hdh, hd, hne⟩ :=
    precursor_retry_eq_some hs rpk ps d prec dh hr
  refine ⟨d, hne, ⟨x, ?_, hd⟩, ?_⟩
  · rw [heq]
    exact List.mem_append_right _ (List.mem_cons_self _ _)
  · intro kf hkf
    obtain ⟨i, hi, rfl⟩ := List.mem_map.mp hkf
    rfl

/-- Witness for C10 at a concrete `threshold = 1` batch of two kfrags. -/
theorem generate_kfrags_threshold_one_constant_witness :
    (∀ (c x : ZMod 5), poly_eval [c] x = c) ∧
    ∃ d, d ≠ 0 ∧ (∃ x ∈ ([1] : List (ZMod 5)),
        d = wHashShared (curve_generator * x) 4 (4 * x)) ∧
      ∀ kf ∈ [wKfT1, wKfT1], kf.key = 3 * d⁻¹ :=
  generate_kfrags_threshold_one_constant wHashShared wHashPoly wSign wParams 3 4
    2 2 true false [1] [2] (fun _ => [9, 9]) [wKfT1, wKfT1] rfl

/-! ### Claim C6 -/

/-- C6: in every kfrag emitted by `generate_kfrags`, `signature_for_bob` is
the signature, under `signing_sk`, of the digest
`H_cfrag_sig(id, commitment, precursor, Some pk_A, Some pk_B)` with both
public keys always present, while `signature_for_proxy` signs the digest with
the keys filtered through `none_unless` by the `sign_delegating_key` /
`sign_receiving_key` flags (key_frag.rs:112-131, 89-95). -/
theorem generate_kfrags_signature_digests {q : ℕ} {Sig : Type} [Fact q.Prime]
    (hs : ZMod q → ZMod q → ZMod q → ZMod q)
    (hp : ZMod q → ZMod q → ZMod q → KeyFragID → ZMod q)
    (es : ZMod q → CfragSigDigest q → Sig)
    (params : Parameters q) (dsk rpk ssk : ZMod q) (T N : ℕ) (sdk srk : Bool)
    (ps cs : List (ZMod q)) (ids : ℕ → KeyFragID) (kfs : List (KeyFrag q Sig))
    (h : generate_kfrags hs hp es params dsk rpk ssk T N sdk srk ps cs ids = some kfs) :
    ∀ kf ∈ kfs,
      kf.proof.signature_for_bob = es ssk (hash_to_cfrag_signature kf.id
        kf.proof.commitment kf.precursor
        (some (PublicKey.from_secret_key dsk)) (some rpk)) ∧
      kf.proof.signature_for_proxy = es ssk (hash_to_cfrag_signature kf.id
        kf.proof.commitment kf.precursor
        (none_unless (some (PublicKey.from_secret_key dsk)) sdk)
        (none_unless (some rpk) srk)) := by
  obtain ⟨F, hF, rfl⟩ :=
    generate_kfrags_eq_some hs hp es params dsk rpk ssk T N sdk srk ps cs ids _ h
  obtain ⟨d, prec, dh, hr, rfl⟩ :=
    keyfrag_factory_new_eq_some hs params dsk rpk ssk T ps cs F hF
  intro kf hkf
  obtain ⟨i, hi, rfl⟩ := List.mem_map.mp hkf
  exact ⟨rfl, rfl⟩

/-- Witness for C6 at a concrete kfrag generated with flags
`(true, false)`. -/
theorem generate_kfrags_signature_digests_witness :
    wKf.proof.signature_for_bob = wSign 2 (hash_to_cfrag_signature wKf.id
      wKf.proof.commitment wKf.precursor
      (some (PublicKey.from_secret_key 3)) (some 4)) ∧
    wKf.proof.signature_for_proxy = wSign 2 (hash_to_cfrag_signature wKf.id
      wKf.proof.commitment wKf.precursor
      (none_unless (some (PublicKey.from_secret_key 3)) true)
      (none_unless (some 4) false)) :=
  generate_kfrags_signature_digests wHashShared wHashPoly wSign wParams 3 4 2 2 1
    true false [1] [2] (fun _ => [9, 9]) [wKf] rfl wKf (by simp)

/-! ### Claim C1 -/

theorem keyfrag_verify_eq {q : ℕ} {Sig : Type}
    (ev : ZMod q → CfragSigDigest q → Sig → Bool)
    (kf : KeyFrag q Sig) (spk : ZMod q) (md mr : Option (ZMod q)) :
    KeyFrag.verify ev kf spk md mr =
      (decide (kf.proof.commitment = kf.params.u * kf.key) &&
        ((!(md.isNone && kf.proof.delegating_key_signed) &&
          !(mr.isNone && kf.proof.receiving_key_signed)) &&
            ev spk (hash_to_cfrag_signature kf.id kf.proof.commitment kf.precursor
              (none_unless md kf.proof.delegating_key_signed)
              (none_unless mr kf.proof.receiving_key_signed))
              kf.proof.signature_for_proxy)) :=
  rfl

/-- Core of C1, honest direction: for a kfrag built by `KeyFrag::new` from a
factory, under the idealized signature scheme, `verify` succeeds iff the
delegating/receiving key is supplied (and correct) whenever the corresponding
flag was set and the verification key is the public key of the factory's
signing key. -/
theorem keyfrag_verify_new_true_iff {q : ℕ} {Sig : Type}
    (hp : ZMod q → ZMod q → ZMod q → KeyFragID → ZMod q)
    (es : ZMod q → CfragSigDigest q → Sig)
    (ev : ZMod q → CfragSigDigest q → Sig → Bool)
    (F : KeyFragFactory q) (id0 : KeyFragID) (sdk srk : Bool)
    (hco : ∀ sk d, ev (PublicKey.from_secret_key sk) d (es sk d) = true)
    (hso : ∀ pk d s, ev pk d s = true →
      ∃ sk, PublicKey.from_secret_key sk = pk ∧ s = es sk d)
    (hdig : ∀ sk1 sk2 d1 d2, es sk1 d1 = es sk2 d2 → d1 = d2)
    (hkey : ∀ sk1 sk2 d1 d2, es sk1 d1 = es sk2 d2 →
      PublicKey.from_secret_key sk1 = PublicKey.from_secret_key sk2)
    (spk : ZMod q) (md mr : Option (ZMod q)) :
    KeyFrag.verify ev (KeyFrag.new hp es F id0 sdk srk) spk md mr = true ↔
      (sdk = true → md = some F.delegating_pk) ∧
      (srk = true → mr = some F.receiving_pk) ∧
      spk = PublicKey.from_secret_key F.signing_sk := by
  rw [keyfrag_verify_eq]
  simp only [keyfrag_new_id, keyfrag_new_precursor, keyfrag_new_params,
    keyfrag_new_key, keyfrag_new_commitment, keyfrag_new_delegating_signed,
    keyfrag_new_receiving_signed, keyfrag_new_sig_proxy,
    Bool.and_eq_true, decide_eq_true_eq, eq_self_iff_true, true_and]
  constructor
  · rintro ⟨⟨hdkp, hrkp⟩, hev⟩
    obtain ⟨sk0, hpk0, hsig0⟩ := hso _ _ _ hev
    have hDeq := hdig _ _ _ _ hsig0
    simp only [hash_to_cfrag_signature, CfragSigDigest.mk.injEq,
      eq_self_iff_true, true_and] at hDeq
    obtain ⟨hmd, hmr⟩ := hDeq
    refine ⟨?_, ?_, ?_⟩
    · intro hsdk
      rw [hsdk] at hmd
      simp [none_unless] at hmd
      exact hmd.symm
    · intro hsrk
      rw [hsrk] at hmr
      simp [none_unless] at hmr
      exact hmr.symm
    · exact ((hkey _ _ _ _ hsig0).trans hpk0).symm
  · rintro ⟨h1, h2, h3⟩
    have hmd : none_unless md sdk = none_unless (some F.delegating_pk) sdk := by
      cases sdk
      · rfl
      · rw [h1 rfl]
    have hmr : none_unless mr srk = none_unless (some F.receiving_pk) srk := by
      cases srk
      · rfl
      · rw [h2 rfl]
    refine ⟨⟨?_, ?_⟩, ?_⟩
    · cases sdk
      · simp
      · rw [h1 rfl]
        simp
    · cases srk
      · simp
      · rw [h2 rfl]
        simp
    · rw [hmd, hmr, h3]
      exact hco _ _

/-- Core of C1, tamper direction: under the idealized signature scheme, any
kfrag with the same scheme parameters that carries the very proxy signature of
a generated kfrag and still verifies must agree with the generated kfrag on
its ID, key, precursor, commitment and both flags, and the verification key
must be the factory's signing public key. -/
theorem keyfrag_verify_new_tamper {q : ℕ} {Sig : Type} [Fact q.Prime]
    (hp : ZMod q → ZMod q → ZMod q → KeyFragID → ZMod q)
    (es : ZMod q → CfragSigDigest q → Sig)
    (ev : ZMod q → CfragSigDigest q → Sig → Bool)
    (F : KeyFragFactory q) (id0 : KeyFragID) (sdk srk : Bool)
    (hu : F.params.u ≠ 0)
    (hso : ∀ pk d s, ev pk d s = true →
      ∃ sk, PublicKey.from_secret_key sk = pk ∧ s = es sk d)
    (hdig : ∀ sk1 sk2 d1 d2, es sk1 d1 = es sk2 d2 → d1 = d2)
    (hkey : ∀ sk1 sk2 d1 d2, es sk1 d1 = es sk2 d2 →
      PublicKey.from_secret_key sk1 = PublicKey.from_secret_key sk2)
    (kf' : KeyFrag q Sig) (spk : ZMod q) (md mr : Option (ZMod q))
    (hparams : kf'.params = F.params)
    (hsig : kf'.proof.signature_for_proxy =
      (KeyFrag.new hp es F id0 sdk srk).proof.signature_for_proxy)
    (hver : KeyFrag.verify ev kf' spk md mr = true) :
    kf'.id = id0 ∧ kf'.key = (KeyFrag.new hp es F id0 sdk srk).key ∧
      kf'.precursor = F.precursor ∧
      kf'.proof.commitment = (KeyFrag.new hp es F id0 sdk srk).proof.commitment ∧
      kf'.proof.delegating_key_signed = sdk ∧
      kf'.proof.receiving_key_signed = srk ∧
      spk = PublicKey.from_secret_key F.signing_sk := by
  rw [keyfrag_verify_eq] at hver
  simp only [Bool.and_eq_true, decide_eq_true_eq] at hver
  obtain ⟨hcc, ⟨hdkp, hrkp⟩, hev⟩ := hver
  obtain ⟨sk0, hpk0, hsig0⟩ := hso _ _ _ hev
  rw [hsig, keyfrag_new_sig_proxy] at hsig0
  have hDeq := hdig _ _ _ _ hsig0
  simp only [hash_to_cfrag_signature, CfragSigDigest.mk.injEq] at hDeq
  obtain ⟨hid, hcom, hprec, hmd, hmr⟩ := hDeq
  have hfd : kf'.proof.delegating_key_signed = sdk := by
    cases hsdk : sdk
    · cases hfd0 : kf'.proof.delegating_key_signed
      · rfl
      · rw [hsdk, hfd0] at hmd
        rw [hfd0] at hdkp
        simp [none_unless] at hmd hdkp
        rw [← hmd] at hdkp
        simp at hdkp
    · cases hfd0 : kf'.proof.delegating_key_signed
      · rw [hsdk, hfd0] at hmd
        simp [none_unless] at hmd
      · rfl
  have hfr : kf'.proof.receiving_key_signed = srk := by
    cases hsrk : srk
    · cases hfr0 : kf'.proof.receiving_key_signed
      · rfl
      · rw [hsrk, hfr0] at hmr
        rw [hfr0] at hrkp
        simp [none_unless] at hmr hrkp
        rw [← hmr] at hrkp
        simp at hrkp
    · cases hfr0 : kf'.proof.receiving_key_signed
      · rw [hsrk, hfr0] at hmr
        simp [none_unless] at hmr
      · rfl
  have hkeyeq : kf'.key = (KeyFrag.new hp es F id0 sdk srk).key := by
    have h1 : F.params.u * kf'.key =
        F.params.u * (KeyFrag.new hp es F id0 sdk srk).key := by
      rw [← hparams, ← hcc, ← hcom, keyfrag_new_commitment, hparams]
    exact mul_left_cancel₀ hu h1
  exact ⟨hid.symm, hkeyeq, hprec.symm, hcom.symm, hfd, hfr,
    ((hkey _ _ _ _ hsig0).trans hpk0).symm⟩

/-- Scheme facts of the concrete idealized-signature instance: honestly
produced signatures verify. -/
theorem wScheme_correct : ∀ (sk : ZMod 5) (d : CfragSigDigest 5),
    wVerifySig (PublicKey.from_secret_key sk) d (wSign sk d) = true := by
  intro sk d
  simp [wVerifySig, wSign]

/-- Scheme facts of the concrete instance: a verifying signature was produced
over the same digest by a key whose public key matches. -/
theorem wScheme_sound : ∀ (pk : ZMod 5) (d : CfragSigDigest 5) (s : WSig),
    wVerifySig pk d s = true →
    ∃ sk, PublicKey.from_secret_key sk = pk ∧ s = wSign sk d := by
  intro pk d s h
  simp only [wVerifySig, decide_eq_true_eq] at h
  refine ⟨pk, ?_, ?_⟩
  · simp [PublicKey.from_secret_key, curve_generator]
  · rw [h]
    simp [wSign, PublicKey.from_secret_key, curve_generator]

/-- Scheme facts of the concrete instance: the deterministic signature binds
its digest. -/
theorem wScheme_digest_binding : ∀ (sk1 sk2 : ZMod 5) (d1 d2 : CfragSigDigest 5),
    wSign sk1 d1 = wSign sk2 d2 → d1 = d2 := by
  intro sk1 sk2 d1 d2 h
  simp only [wSign, Prod.mk.injEq] at h
  exact h.2

/-- Scheme facts of the concrete instance: the deterministic signature binds
its signer's public key. -/
theorem wScheme_key_binding : ∀ (sk1 sk2 : ZMod 5) (d1 d2 : CfragSigDigest 5),
    wSign sk1 d1 = wSign sk2 d2 →
    PublicKey.from_secret_key sk1 = PublicKey.from_secret_key sk2 := by
  intro sk1 sk2 d1 d2 h
  simp only [wSign, Prod.mk.injEq] at h
  exact h.1

/-- C1 counterexample: `KeyFrag::verify` returning `true` does not imply the
kfrag is unmodified since generation.  Two modifications of the generated
`wKf` (flags `(true, false)`, correct keys and signing key supplied) still
verify: replacing `signature_for_bob`, which `verify` never reads
(key_frag.rs:233-267 uses only `signature_for_proxy`), and jointly rescaling
`params.u` and `key` so that the commitment `u · key` is preserved. -/
theorem keyfrag_verify_modified_cex :
    (wKfBobTampered ≠ wKf ∧
      KeyFrag.verify wVerifySig wKfBobTampered (PublicKey.from_secret_key 2)
        (some (PublicKey.from_secret_key 3)) none = true) ∧
    (wKfParamsTampered ≠ wKf ∧
      KeyFrag.verify wVerifySig wKfParamsTampered (PublicKey.from_secret_key 2)
        (some (PublicKey.from_secret_key 3)) none = true) := by
  have hbase : KeyFrag.verify wVerifySig wKf (PublicKey.from_secret_key 2)
      (some (PublicKey.from_secret_key 3)) none = true :=
    (keyfrag_verify_new_true_iff wHashPoly wSign wVerifySig wFactory [9, 9]
      true false wScheme_correct wScheme_sound wScheme_digest_binding
      wScheme_key_binding (PublicKey.from_secret_key 2)
      (some (PublicKey.from_secret_key 3)) none).mpr
      ⟨fun _ => rfl, fun hh => Bool.noConfusion hh, rfl⟩
  refine ⟨⟨?_, ?_⟩, ⟨?_, ?_⟩⟩
  · intro h
    exact absurd
      (congrArg (fun kf => kf.proof.signature_for_bob.2.kfrag_id) h) (by decide)
  · exact hbase
  · intro h
    exact absurd (congrArg (fun kf => kf.params.u) h) (by decide)
  · have hcc : wKfParamsTampered.proof.commitment =
        wKfParamsTampered.params.u * wKfParamsTampered.key := by
      show (2 : ZMod 5) * wKf.key = 4 * (3 * wKf.key)
      rw [← mul_assoc]
      have h43 : (4 : ZMod 5) * 3 = 2 := by decide
      rw [h43]
    rw [keyfrag_verify_eq, decide_eq_true hcc, Bool.true_and]
    rw [keyfrag_verify_eq] at hbase
    simp only [Bool.and_eq_true] at hbase ⊢
    exact hbase.2

/-- C1, amended: for every kfrag produced by `generate_kfrags`, under the
idealized deterministic signature scheme (honest signatures verify; a
verifying signature was produced over the same digest by a key with the
matching public key), `KeyFrag::verify(signing_pk, maybe_delegating_pk,
maybe_receiving_pk)` returns `true` iff the correct delegating (resp.
receiving) public key is supplied whenever the recorded
`delegating_key_signed` (resp. `receiving_key_signed`) flag is set and
`signing_pk` is the public key of the `signing_sk` used at generation.  The
claim's "and the kfrag is unmodified since generation" holds only for the
fields `verify` inspects: among kfrags carrying the generated scheme
parameters and proxy signature, a `true` verification forces ID, key,
precursor, commitment and both flags to equal the generated ones (second
conjunct); but `verify` never reads `signature_for_bob`, so replacing it
preserves the verification result entirely (third conjunct), and `params`
and `key` can be jointly replaced preserving `u · key` (the counterexample)
(key_frag.rs:233-267, 99-140). -/
theorem keyfrag_verify_iff_correct_keys {q : ℕ} {Sig : Type} [Fact q.Prime]
    (hs : ZMod q → ZMod q → ZMod q → ZMod q)
    (hp : ZMod q → ZMod q → ZMod q → KeyFragID → ZMod q)
    (es : ZMod q → CfragSigDigest q → Sig)
    (ev : ZMod q → CfragSigDigest q → Sig → Bool)
    (params : Parameters q) (dsk rpk ssk : ZMod q) (T N : ℕ) (sdk srk : Bool)
    (ps cs : List (ZMod q)) (ids : ℕ → KeyFragID) (kfs : List (KeyFrag q Sig))
    (kf : KeyFrag q Sig)
    (hgen : generate_kfrags hs hp es params dsk rpk ssk T N sdk srk ps cs ids = some kfs)
    (hkf : kf ∈ kfs)
    (hu : params.u ≠ 0)
    (hco : ∀ sk d, ev (PublicKey.from_secret_key sk) d (es sk d) = true)
    (hso : ∀ pk d s, ev pk d s = true →
      ∃ sk, PublicKey.from_secret_key sk = pk ∧ s = es sk d)
    (hdig : ∀ sk1 sk2 d1 d2, es sk1 d1 = es sk2 d2 → d1 = d2)
    (hkey : ∀ sk1 sk2 d1 d2, es sk1 d1 = es sk2 d2 →
      PublicKey.from_secret_key sk1 = PublicKey.from_secret_key sk2) :
    (∀ (spk : ZMod q) (md mr : Option (ZMod q)),
      KeyFrag.verify ev kf spk md mr = true ↔
        (kf.proof.delegating_key_signed = true →
          md = some (PublicKey.from_secret_key dsk)) ∧
        (kf.proof.receiving_key_signed = true → mr = some rpk) ∧
        spk = PublicKey.from_secret_key ssk) ∧
    (∀ (kf' : KeyFrag q Sig) (spk : ZMod q) (md mr : Option (ZMod q)),
      kf'.params = kf.params →
      kf'.proof.signature_for_proxy = kf.proof.signature_for_proxy →
      KeyFrag.verify ev kf' spk md mr = true →
      kf'.id = kf.id ∧ kf'.key = kf.key ∧ kf'.precursor = kf.precursor ∧
        kf'.proof.commitment = kf.proof.commitment ∧
        kf'.proof.delegating_key_signed = kf.proof.delegating_key_signed ∧
        kf'.proof.receiving_key_signed = kf.proof.receiving_key_signed ∧
        spk = PublicKey.from_secret_key ssk) ∧
    (∀ (s : Sig) (spk : ZMod q) (md mr : Option (ZMod q)),
      KeyFrag.verify ev
        { kf with proof := { kf.proof with signature_for_bob := s } } spk md mr =
        KeyFrag.verify ev kf spk md mr) := by
  obtain ⟨F, hF, rfl⟩ :=
    generate_kfrags_eq_some hs hp es params dsk rpk ssk T N sdk srk ps cs ids _ hgen
  obtain ⟨i, hi, rfl⟩ := List.mem_map.mp hkf
  obtain ⟨d, prec, dh, hr, rfl⟩ :=
    keyfrag_factory_new_eq_some hs params dsk rpk ssk T ps cs F hF
  refine ⟨?_, ?_, ?_⟩
  · intro spk md mr
    exact keyfrag_verify_new_true_iff hp es ev _ (ids i) sdk srk hco hso hdig
      hkey spk md mr
  · intro kf' spk md mr hparams hsig hver
    exact keyfrag_verify_new_tamper hp es ev _ (ids i) sdk srk hu hso hdig hkey
      kf' spk md mr hparams hsig hver
  · intro s spk md mr
    rfl

/-- Witness for the amended C1: at the concrete instance, the kfrag generated
with flags `(true, false)` verifies under the honest signing public key with
the correct delegating key supplied and the receiving key absent. -/
theorem keyfrag_verify_iff_correct_keys_witness :
    KeyFrag.verify wVerifySig wKf (PublicKey.from_secret_key 2)
      (some (PublicKey.from_secret_key 3)) none = true :=
  ((keyfrag_verify_iff_correct_keys wHashShared wHashPoly wSign wVerifySig wParams
      3 4 2 2 1 true false [1] [2] (fun _ => [9, 9]) [wKf] wKf rfl (by simp)
      (by decide) wScheme_correct wScheme_sound wScheme_digest_binding
      wScheme_key_binding).1
    (PublicKey.from_secret_key 2) (some (PublicKey.from_secret_key 3)) none).mpr
    ⟨fun _ => rfl, fun h => absurd h (by decide), rfl⟩

/-! ### Claim C4 -/

/-- Round trip and layout for `KeyFragProof` serialization
(key_frag.rs:61-87): 163 bytes, commitment ‖ sig_proxy ‖ sig_bob ‖ flags,
given a faithful 64-byte signature codec. -/
theorem keyfrag_proof_to_bytes_spec {q : ℕ} {Sig : Type} [NeZero q]
    (hq : q ≤ 256 ^ 32)
    (sig_to_bytes : Sig → List ℕ) (bytes_to_sig : List ℕ → Option Sig)
    (hlen : ∀ s, (sig_to_bytes s).length = 64)
    (hrt : ∀ s, bytes_to_sig (sig_to_bytes s) = some s)
    (proof : KeyFragProof q Sig) :
    (KeyFragProof.to_bytes sig_to_bytes proof).length = 163 ∧
    KeyFragProof.from_bytes bytes_to_sig
      (KeyFragProof.to_bytes sig_to_bytes proof) = some proof := by
  have hL : (KeyFragProof.to_bytes sig_to_bytes proof).length = 163 := by
    simp [KeyFragProof.to_bytes, point_to_bytes_length, hlen, bool_to_bytes_length]
  refine ⟨hL, ?_⟩
  rw [KeyFragProof.from_bytes, if_pos hL]
  have e : KeyFragProof.to_bytes sig_to_bytes proof =
      point_to_bytes proof.commitment ++ (sig_to_bytes proof.signature_for_proxy ++
        (sig_to_bytes proof.signature_for_bob ++
          (bool_to_bytes proof.delegating_key_signed ++
            bool_to_bytes proof.receiving_key_signed))) := by
    simp [KeyFragProof.to_bytes, List.append_assoc]
  rw [e]
  rw [List.take_left' (point_to_bytes_length _),
    List.drop_left' (point_to_bytes_length _)]
  rw [List.take_left' (hlen _), List.drop_left' (hlen _)]
  rw [List.take_left' (hlen _), List.drop_left' (hlen _)]
  rw [List.take_left' (bool_to_bytes_length _),
    List.drop_left' (bool_to_bytes_length _)]
  rw [bytes_to_point_point_to_bytes hq, hrt, hrt,
    bytes_to_bool_bool_to_bytes, bytes_to_bool_bool_to_bytes]

/-- C4: for every `KeyFrag`, `from_array (to_array kf) = some kf`; the
serialized form is exactly 293 bytes laid out as
params ‖ id ‖ key ‖ precursor ‖ proof, and the 163-byte proof is laid out as
commitment ‖ sig_proxy ‖ sig_bob ‖ delegating flag ‖ receiving flag
(key_frag.rs:61-87, 159-185), for any faithful 64-byte signature codec and
any scalar field fitting 32 bytes. -/
theorem keyfrag_serialization_roundtrip {q : ℕ} {Sig : Type} [NeZero q]
    (hq : q ≤ 256 ^ 32)
    (sig_to_bytes : Sig → List ℕ) (bytes_to_sig : List ℕ → Option Sig)
    (hlen : ∀ s, (sig_to_bytes s).length = 64)
    (hrt : ∀ s, bytes_to_sig (sig_to_bytes s) = some s)
    (kf : KeyFrag q Sig) (hid : kf.id.length = 32) :
    KeyFrag.from_bytes bytes_to_sig (KeyFrag.to_bytes sig_to_bytes kf) = some kf ∧
    (KeyFrag.to_bytes sig_to_bytes kf).length = 293 ∧
    KeyFrag.to_bytes sig_to_bytes kf =
      Parameters.to_bytes kf.params ++ kf.id ++ scalar_to_bytes kf.key ++
        point_to_bytes kf.precursor ++ KeyFragProof.to_bytes sig_to_bytes kf.proof ∧
    (KeyFragProof.to_bytes sig_to_bytes kf.proof).length = 163 ∧
    KeyFragProof.to_bytes sig_to_bytes kf.proof =
      point_to_bytes kf.proof.commitment ++
        sig_to_bytes kf.proof.signature_for_proxy ++
        sig_to_bytes kf.proof.signature_for_bob ++
        bool_to_bytes kf.proof.delegating_key_signed ++
        bool_to_bytes kf.proof.receiving_key_signed := by
  obtain ⟨hPL, hPR⟩ :=
    keyfrag_proof_to_bytes_spec hq sig_to_bytes bytes_to_sig hlen hrt kf.proof
  have hL : (KeyFrag.to_bytes sig_to_bytes kf).length = 293 := by
    simp [KeyFrag.to_bytes, Parameters.to_bytes, point_to_bytes_length,
      scalar_to_bytes_length, hid, hPL]
  refine ⟨?_, hL, rfl, hPL, rfl⟩
  rw [KeyFrag.from_bytes, if_pos hL]
  have e : KeyFrag.to_bytes sig_to_bytes kf =
      Parameters.to_bytes kf.params ++ (kf.id ++ (scalar_to_bytes kf.key ++
        (point_to_bytes kf.precursor ++
          KeyFragProof.to_bytes sig_to_bytes kf.proof))) := by
    simp [KeyFrag.to_bytes, List.append_assoc]
  rw [e]
  have hparamsLen : (Parameters.to_bytes kf.params).length = 33 :=
    point_to_bytes_length _
  rw [List.take_left' hparamsLen, List.drop_left' hparamsLen]
  rw [List.take_left' hid, List.drop_left' hid]
  rw [List.take_left' (scalar_to_bytes_length _),
    List.drop_left' (scalar_to_bytes_length _)]
  rw [List.take_left' (point_to_bytes_length _),
    List.drop_left' (point_to_bytes_length _)]
  have hparamsDec : Parameters.from_bytes (q := q)
      (Parameters.to_bytes kf.params) = some kf.params := by
    simp [Parameters.from_bytes, Parameters.to_bytes,
      bytes_to_point_point_to_bytes hq]
  rw [hparamsDec, bytes_to_scalar_scalar_to_bytes hq,
    bytes_to_point_point_to_bytes hq, hPR]

/-- Witness for C4 at a concrete kfrag over `q = 5` with the `(r, s)`
signature codec. -/
theorem keyfrag_serialization_roundtrip_witness :
    KeyFrag.from_bytes wBytesToSig (KeyFrag.to_bytes wSigToBytes wKfRS) =
      some wKfRS ∧
    (KeyFrag.to_bytes wSigToBytes wKfRS).length = 293 :=
  ⟨(keyfrag_serialization_roundtrip (by norm_num) wSigToBytes wBytesToSig
      (fun s => by simp [wSigToBytes, scalar_to_bytes_length])
      (fun s => by
        obtain ⟨r, sc⟩ := s
        simp only [wSigToBytes, wBytesToSig,
          List.take_left' (scalar_to_bytes_length _),
          List.drop_left' (scalar_to_bytes_length _),
          bytes_to_scalar_scalar_to_bytes (by norm_num : (5 : ℕ) ≤ 256 ^ 32)])
      wKfRS rfl).1,
    (keyfrag_serialization_roundtrip (by norm_num) wSigToBytes wBytesToSig
      (fun s => by simp [wSigToBytes, scalar_to_bytes_length])
      (fun s => by
        obtain ⟨r, sc⟩ := s
        simp only [wSigToBytes, wBytesToSig,
          List.take_left' (scalar_to_bytes_length _),
          List.drop_left' (scalar_to_bytes_length _),
          bytes_to_scalar_scalar_to_bytes (by norm_num : (5 : ℕ) ≤ 256 ^ 32)])
      wKfRS rfl).2.1⟩

end Umbral
